import Mathlib

/-!
Shallow embedding of the chatconnect server core (storage layer, HTTP route
handlers and the WebSocket presence channel) together with proofs about the
claims of its specification.

Modelling conventions:
* Database identifiers (`gen_random_uuid()`) are modelled as natural numbers
  drawn from a counter `nextId` carried by the database state; a well-formed
  state has every stored id below the counter, so freshly drawn ids are new.
* `now()` timestamps are natural numbers; the ambient clock is the `now`
  field of the database state (the value `new Date()` would observe).
* Each storage operation is a pure function from a database state to a result
  paired with the successor state.  Operations that can fail at the SQL layer
  (foreign-key violations on insert) return `Except DBErr α` for the result;
  the paired state is the state after the partial writes that happened before
  the failure, because the TypeScript code runs them without a transaction.
* SQL constraints present in the schema (`shared/schema.ts`) are part of the
  model: `conversationMembers`, `messages` and `calls` carry NOT NULL foreign
  keys on their conversation/user columns.  The schema declares NO uniqueness
  constraint on the (conversationId, userId) pair of `conversation_members`;
  only primary-key ids are unique, so `onConflictDoNothing` has no unique
  conflict to swallow for a duplicated pair and a second row is inserted.
* SQL `ORDER BY x DESC` is modelled by a stable insertion sort on the key;
  `LIMIT`/`OFFSET` by `List.take`/`List.drop`; `INTERSECT` of the two
  membership joins by a single filter over the conversations table (the two
  yield the same set of conversations); `INNER JOIN` by a `flatMap` pairing
  each row with every matching row of the joined table.
-/

namespace ChatConnect

/-- The users table row (`shared/schema.ts`, `users`). -/
structure User where
  id : Nat
  username : String
  email : String
  password : String
  avatar : Option String
  isOnline : Bool
  lastSeen : Option Nat
  createdAt : Nat
deriving Repr, DecidableEq

/-- The conversations table row (`shared/schema.ts`, `conversations`). -/
structure Conversation where
  id : Nat
  name : Option String
  description : Option String
  isGroup : Bool
  avatar : Option String
  createdBy : Option Nat
  createdAt : Nat
deriving Repr, DecidableEq

/-- The conversation_members table row (`shared/schema.ts`,
`conversationMembers`).  Its only unique column is the primary key `id`. -/
structure ConversationMember where
  id : Nat
  conversationId : Nat
  userId : Nat
  joinedAt : Nat
deriving Repr, DecidableEq

/-- The messages table row (`shared/schema.ts`, `messages`).  `replyToId`
carries no foreign-key constraint in the schema. -/
structure Message where
  id : Nat
  conversationId : Nat
  senderId : Nat
  content : Option String
  type : String
  fileUrl : Option String
  fileName : Option String
  fileSize : Option Int
  replyToId : Option Nat
  isDeleted : Bool
  createdAt : Nat
deriving Repr, DecidableEq

/-- The calls table row (`shared/schema.ts`, `calls`). -/
structure Call where
  id : Nat
  conversationId : Nat
  callerId : Nat
  type : String
  status : String
  startedAt : Nat
  endedAt : Option Nat
deriving Repr, DecidableEq

/-- Errors surfaced by the SQL layer on insert: a NOT NULL foreign key that
does not resolve raises a foreign-key violation (never handled by
`onConflictDoNothing`, which only swallows unique-constraint conflicts). -/
inductive DBErr where
  | fkViolation
deriving Repr, DecidableEq

/-- The database state: the five tables, the id generator and the clock. -/
structure DB where
  users : List User
  conversations : List Conversation
  conversationMembers : List ConversationMember
  messages : List Message
  calls : List Call
  nextId : Nat
  now : Nat
deriving Repr, DecidableEq

/-- Insert shape accepted by `createConversation`
(`insertConversationSchema`: all columns except `id`/`createdAt`; `isGroup`
defaults to `false` at the store when absent). -/
structure InsertConversation where
  name : Option String
  description : Option String
  isGroup : Option Bool
  avatar : Option String
  createdBy : Option Nat
deriving Repr, DecidableEq

/-- Insert shape accepted by `createMessage` (`insertMessageSchema`: all
columns except `id`/`createdAt`/`isDeleted`; `type` defaults to `"text"`). -/
structure InsertMessage where
  conversationId : Nat
  senderId : Nat
  content : Option String
  type : Option String
  fileUrl : Option String
  fileName : Option String
  fileSize : Option Int
  replyToId : Option Nat
deriving Repr, DecidableEq

/-- Insert shape accepted by `createCall` (`insertCallSchema`: all columns
except `id`/`startedAt`/`endedAt`; `status` defaults to `"pending"`). -/
structure InsertCall where
  conversationId : Nat
  callerId : Nat
  type : String
  status : Option String
deriving Repr, DecidableEq

/-- Whether a user id resolves in the users table (foreign-key check). -/
def userExists (db : DB) (uid : Nat) : Bool :=
  db.users.any (fun u => u.id == uid)

/-- Whether a conversation id resolves in the conversations table. -/
def convExists (db : DB) (cid : Nat) : Bool :=
  db.conversations.any (fun c => c.id == cid)

/-- Embeds `DatabaseStorage.getUser`: first users row with the given id. -/
def getUser (db : DB) (uid : Nat) : Option User :=
  db.users.find? (fun u => u.id == uid)

/-- Embeds `DatabaseStorage.updateUserOnlineStatus`: updates `isOnline` on
the row with the given id; `lastSeen` is set to the current time only when
going offline (drizzle drops the `undefined` field from the UPDATE when
`isOnline` is true, leaving `lastSeen` untouched). -/
def updateUserOnlineStatus (db : DB) (uid : Nat) (isOnline : Bool) : DB :=
  { db with users := db.users.map (fun u =>
      if u.id == uid then
        { u with isOnline := isOnline,
                 lastSeen := if isOnline then u.lastSeen else some db.now }
      else u) }

/-- Embeds `DatabaseStorage.createConversation`: inserts a row with a fresh
id and store-assigned `createdAt`; the optional `createdBy` foreign key must
resolve or the insert fails. -/
def createConversation (db : DB) (ins : InsertConversation) :
    Except DBErr Conversation × DB :=
  match ins.createdBy with
  | some u =>
    if userExists db u then
      let c : Conversation :=
        { id := db.nextId, name := ins.name, description := ins.description,
          isGroup := ins.isGroup.getD false, avatar := ins.avatar,
          createdBy := some u, createdAt := db.now }
      (Except.ok c,
        { db with conversations := db.conversations ++ [c],
                  nextId := db.nextId + 1 })
    else (Except.error DBErr.fkViolation, db)
  | none =>
    let c : Conversation :=
      { id := db.nextId, name := ins.name, description := ins.description,
        isGroup := ins.isGroup.getD false, avatar := ins.avatar,
        createdBy := none, createdAt := db.now }
    (Except.ok c,
      { db with conversations := db.conversations ++ [c],
                nextId := db.nextId + 1 })

/-- Embeds `DatabaseStorage.addConversationMember`: inserts a
(conversation, user) row with a fresh id.  Both NOT NULL foreign keys must
resolve, else the insert raises a foreign-key violation.  The statement's
`onConflictDoNothing` only suppresses unique-constraint conflicts, and the
schema has no unique constraint on the pair, so a duplicate pair simply
inserts a second row. -/
def addConversationMember (db : DB) (cid uid : Nat) : Except DBErr Unit × DB :=
  if convExists db cid && userExists db uid then
    let row : ConversationMember :=
      { id := db.nextId, conversationId := cid, userId := uid,
        joinedAt := db.now }
    (Except.ok (),
      { db with conversationMembers := db.conversationMembers ++ [row],
                nextId := db.nextId + 1 })
  else (Except.error DBErr.fkViolation, db)

/-- Whether the membership table has a row joining the user to the
conversation. -/
def isMember (db : DB) (cid uid : Nat) : Bool :=
  db.conversationMembers.any (fun m => m.conversationId == cid && m.userId == uid)

/-- The conversations produced by the INTERSECT query inside
`getOrCreateDirectConversation`: non-group conversations joined to a
membership row of `u1`, intersected with those joined to a membership row of
`u2` — i.e. the non-group conversations having both as members, in table
order. -/
def directPair (db : DB) (u1 u2 : Nat) : List Conversation :=
  db.conversations.filter
    (fun c => !c.isGroup && isMember db c.id u1 && isMember db c.id u2)

/-- Embeds `DatabaseStorage.getOrCreateDirectConversation`: returns the first
row of the intersection when non-empty, otherwise creates a non-group
conversation with `createdBy = u1` and adds both users as members.  An error
on any step propagates (the route catches it), keeping the writes already
made. -/
def getOrCreateDirectConversation (db : DB) (u1 u2 : Nat) :
    Except DBErr Conversation × DB :=
  match directPair db u1 u2 with
  | c :: _ => (Except.ok c, db)
  | [] =>
    match createConversation db
        { name := none, description := none, isGroup := some false,
          avatar := none, createdBy := some u1 } with
    | (Except.error e, db1) => (Except.error e, db1)
    | (Except.ok c, db1) =>
      match addConversationMember db1 c.id u1 with
      | (Except.error e, db2) => (Except.error e, db2)
      | (Except.ok _, db2) =>
        match addConversationMember db2 c.id u2 with
        | (Except.error e, db3) => (Except.error e, db3)
        | (Except.ok _, db3) => (Except.ok c, db3)

/-- Stable insertion step for descending sort: `x` (originally earlier than
the already-sorted tail) is placed before every element whose key is not
greater than its own, so equal keys keep their original order. -/
def insertByKeyDesc (key : α → Nat) (x : α) : List α → List α
  | [] => [x]
  | y :: ys => if key y ≤ key x then x :: y :: ys else y :: insertByKeyDesc key x ys

/-- Stable sort by a numeric key, largest first: models `ORDER BY key DESC`
with ties left in table order. -/
def sortByKeyDesc (key : α → Nat) (l : List α) : List α :=
  l.foldr (insertByKeyDesc key) []

/-- One row of the `messages INNER JOIN users ON senderId = users.id`
query. -/
structure MsgSender where
  message : Message
  sender : User
deriving Repr, DecidableEq

/-- One element of the list returned by `getConversationMessages`: a message
with its sender and, when the message carries a reply reference that
resolved, the reply target with its sender. -/
structure HistoryEntry where
  message : Message
  sender : User
  replyTo : Option MsgSender
deriving Repr, DecidableEq

/-- The join of the messages table with the users table on the sender id
(`INNER JOIN`): each message paired with every users row matching its
`senderId`; a message whose sender id does not resolve yields no row. -/
def msgUserJoin (db : DB) : List MsgSender :=
  db.messages.flatMap (fun m =>
    (db.users.filter (fun u => u.id == m.senderId)).map
      (fun u => { message := m, sender := u }))

/-- The first query of `getConversationMessages`: the join rows of the
conversation that are not soft-deleted, ordered newest-first
(`ORDER BY created_at DESC`), after OFFSET and LIMIT. -/
def historyPage (db : DB) (cid limit offset : Nat) : List MsgSender :=
  ((sortByKeyDesc (fun r : MsgSender => r.message.createdAt)
      ((msgUserJoin db).filter (fun r =>
        r.message.conversationId == cid && r.message.isDeleted == false))).drop
    offset).take limit

/-- Embeds `DatabaseStorage.getConversationMessages`: joins messages with
senders, keeps the conversation's non-deleted rows, orders newest-first,
applies OFFSET then LIMIT, fetches the rows whose ids occur as reply targets
of the page (without any deleted-filter), attaches them through a map in
which a later row with the same id wins, and finally reverses the page. -/
def getConversationMessages (db : DB) (cid : Nat)
    (limit : Nat := 50) (offset : Nat := 0) : List HistoryEntry :=
  let messageList := historyPage db cid limit offset
  let replyIds := messageList.filterMap (fun r => r.message.replyToId)
  let replyMessages := (msgUserJoin db).filter (fun r => replyIds.contains r.message.id)
  (messageList.map (fun r =>
    { message := r.message, sender := r.sender,
      replyTo := r.message.replyToId.bind (fun i =>
        replyMessages.reverse.find? (fun t => t.message.id == i)) })).reverse

/-- Embeds `DatabaseStorage.createMessage`: inserts the row (fresh id,
store-assigned `createdAt`, `isDeleted` false, `type` defaulted) after the
NOT NULL foreign keys resolve, then reads the sender row back (`Option`
mirrors the unchecked single-row destructuring in the TypeScript). -/
def createMessage (db : DB) (ins : InsertMessage) :
    Except DBErr (Message × Option User) × DB :=
  if convExists db ins.conversationId && userExists db ins.senderId then
    let m : Message :=
      { id := db.nextId, conversationId := ins.conversationId,
        senderId := ins.senderId, content := ins.content,
        type := ins.type.getD "text", fileUrl := ins.fileUrl,
        fileName := ins.fileName, fileSize := ins.fileSize,
        replyToId := ins.replyToId, isDeleted := false, createdAt := db.now }
    let db1 := { db with messages := db.messages ++ [m], nextId := db.nextId + 1 }
    (Except.ok (m, getUser db1 ins.senderId), db1)
  else (Except.error DBErr.fkViolation, db)

/-- Embeds `DatabaseStorage.deleteMessage`: one UPDATE setting `isDeleted`
on the rows matching both the message id and the sender id, returning
whether at least one row matched. -/
def deleteMessage (db : DB) (messageId uid : Nat) : Bool × DB :=
  (db.messages.any (fun m => m.id == messageId && m.senderId == uid),
   { db with messages := db.messages.map (fun m =>
      if m.id == messageId && m.senderId == uid then
        { m with isDeleted := true } else m) })

/-- Embeds `DatabaseStorage.createCall`: inserts a call row with fresh id,
defaulted `"pending"` status, store-assigned start time and no end time. -/
def createCall (db : DB) (ins : InsertCall) : Except DBErr Call × DB :=
  if convExists db ins.conversationId && userExists db ins.callerId then
    let c : Call :=
      { id := db.nextId, conversationId := ins.conversationId,
        callerId := ins.callerId, type := ins.type,
        status := ins.status.getD "pending", startedAt := db.now,
        endedAt := none }
    (Except.ok c, { db with calls := db.calls ++ [c], nextId := db.nextId + 1 })
  else (Except.error DBErr.fkViolation, db)

/-- Embeds `DatabaseStorage.updateCallStatus`: sets the status on the rows
with the given id. -/
def updateCallStatus (db : DB) (callId : Nat) (status : String) : DB :=
  { db with calls := db.calls.map (fun c =>
      if c.id == callId then { c with status := status } else c) }

/-- Embeds `DatabaseStorage.endCall`: sets status `"ended"` and the end
timestamp on the rows with the given id. -/
def endCall (db : DB) (callId : Nat) : DB :=
  { db with calls := db.calls.map (fun c =>
      if c.id == callId then
        { c with status := "ended", endedAt := some db.now } else c) }

/-- SQL LIKE/ILIKE pattern matching over characters, case-folded: `%`
matches any (possibly empty) sequence — the rest of the pattern may resume
at any suffix of the text — `_` matches exactly one character, any other
pattern character matches itself up to case.  (The Postgres escape
character is not modelled; none of the queries considered here uses
one.) -/
def likeMatch (pat : List Char) (s : List Char) : Bool :=
  match pat with
  | [] => s.isEmpty
  | '%' :: ps => s.tails.any (fun t => likeMatch ps t)
  | '_' :: ps =>
    match s with
    | [] => false
    | _ :: s1 => likeMatch ps s1
  | p :: ps =>
    match s with
    | [] => false
    | c :: s1 => (p.toLower == c.toLower) && likeMatch ps s1

/-- Whether a column value matches `ILIKE '%' || q || '%'`. -/
def ilikeContains (q field : String) : Bool :=
  likeMatch (('%' :: q.data) ++ ['%']) field.data

/-- Embeds `DatabaseStorage.searchUsers`: users whose username or email
matches `%query%` case-insensitively, excluding the given id, first 20
rows. -/
def searchUsers (db : DB) (q : String) (excludeUserId : Nat) : List User :=
  (db.users.filter (fun u =>
    (ilikeContains q u.username || ilikeContains q u.email) &&
      u.id != excludeUserId)).take 20

/-- Payload of an event envelope, one constructor per broadcast site in
`routes.ts`. -/
inductive EventData where
  | newMessage (message : Message) (sender : Option User)
  | messageDeleted (messageId : Nat)
  | callInitiated (call : Call)
  | callStatusUpdated (callId : Nat) (status : String)
deriving Repr, DecidableEq

/-- The `{ type, data }` JSON object pushed over the live channel. -/
structure Envelope where
  type : String
  data : EventData
deriving Repr, DecidableEq

/-- One WebSocket connection as the server sees it: whether `readyState` is
OPEN, and the envelopes written to it so far. -/
structure Conn where
  isOpen : Bool
  inbox : List Envelope
deriving Repr, DecidableEq

/-- The in-process server state: the database plus the `connections` map
from user id to live socket (`Map<string, WebSocket>` in `routes.ts`). -/
structure Server where
  db : DB
  connections : List (Nat × Conn)
deriving Repr, DecidableEq

/-- JS `Map.set` semantics on the connections map: an existing key keeps its
position and gets the new value, a new key is appended. -/
def connSet (conns : List (Nat × Conn)) (uid : Nat) (c : Conn) :
    List (Nat × Conn) :=
  if conns.any (fun p => p.1 == uid) then
    conns.map (fun p => if p.1 == uid then (uid, c) else p)
  else conns ++ [(uid, c)]

/-- The broadcast loop of every mutating route: append the envelope to each
connection whose `readyState` is OPEN, skip the rest.  No membership check
of any kind. -/
def broadcast (conns : List (Nat × Conn)) (env : Envelope) :
    List (Nat × Conn) :=
  conns.map (fun p =>
    if p.2.isOpen then (p.1, { p.2 with inbox := p.2.inbox ++ [env] }) else p)

/-- Embeds `POST /api/conversations/:id/messages`: builds the insert from
the body with the authenticated sender and the path conversation, persists
it, then broadcasts one `new_message` envelope carrying the message joined
with its sender; a storage failure answers 400 and broadcasts nothing. -/
def postMessageRoute (s : Server) (userId cid : Nat)
    (content : Option String) (type : Option String)
    (fileUrl fileName : Option String) (fileSize : Option Int)
    (replyToId : Option Nat) :
    Except Nat (Message × Option User) × Server :=
  match createMessage s.db
      { conversationId := cid, senderId := userId, content := content,
        type := type, fileUrl := fileUrl, fileName := fileName,
        fileSize := fileSize, replyToId := replyToId } with
  | (Except.error _, db1) => (Except.error 400, { s with db := db1 })
  | (Except.ok (m, sender), db1) =>
    (Except.ok (m, sender),
     { db := db1,
       connections := broadcast s.connections
         { type := "new_message", data := EventData.newMessage m sender } })

/-- Embeds `DELETE /api/messages/:id`: applies the owner-guarded soft
delete; on success broadcasts one `message_deleted` envelope with the
message id, otherwise answers 404 and broadcasts nothing. -/
def deleteMessageRoute (s : Server) (userId mid : Nat) :
    Except Nat Unit × Server :=
  match deleteMessage s.db mid userId with
  | (false, db1) => (Except.error 404, { s with db := db1 })
  | (true, db1) =>
    (Except.ok (),
     { db := db1,
       connections := broadcast s.connections
         { type := "message_deleted", data := EventData.messageDeleted mid } })

/-- Embeds `POST /api/calls`: persists the call with the authenticated user
as caller, then broadcasts one `call_initiated` envelope carrying the call;
a storage failure answers 400 and broadcasts nothing. -/
def postCallRoute (s : Server) (userId cid : Nat) (type : String)
    (status : Option String) : Except Nat Call × Server :=
  match createCall s.db
      { conversationId := cid, callerId := userId, type := type,
        status := status } with
  | (Except.error _, db1) => (Except.error 400, { s with db := db1 })
  | (Except.ok c, db1) =>
    (Except.ok c,
     { db := db1,
       connections := broadcast s.connections
         { type := "call_initiated", data := EventData.callInitiated c } })

/-- Embeds `PATCH /api/calls/:id`: routes status `"ended"` to `endCall` and
any other status to `updateCallStatus`, then broadcasts one
`call_status_updated` envelope with the id and the requested status. -/
def patchCallRoute (s : Server) (callId : Nat) (status : String) :
    Except Nat Unit × Server :=
  let db1 := if status == "ended" then endCall s.db callId
             else updateCallStatus s.db callId status
  (Except.ok (),
   { db := db1,
     connections := broadcast s.connections
       { type := "call_status_updated",
         data := EventData.callStatusUpdated callId status } })

/-- The member loop of `POST /api/conversations`: inserts each id in turn,
stopping at the first failing insert and keeping the rows already
inserted. -/
def addMembersLoop (convId : Nat) (db : DB) :
    List Nat → Except Nat Unit × DB
  | [] => (Except.ok (), db)
  | uid :: rest =>
    match addConversationMember db convId uid with
    | (Except.error _, db1) => (Except.error 400, db1)
    | (Except.ok _, db1) => addMembersLoop convId db1 rest

/-- Embeds `POST /api/conversations`: creates the conversation with the
authenticated user as creator, adds the creator as member, then adds each
requested member id in order.  Every step runs as its own statement — no
transaction — so a failing member insert answers 400 while the conversation
and the members added before the failure remain in the database. -/
def postConversationsRoute (db : DB) (userId : Nat)
    (name description : Option String) (isGroup : Option Bool)
    (avatar : Option String) (memberIds : List Nat) :
    Except Nat Conversation × DB :=
  match createConversation db
      { name := name, description := description, isGroup := isGroup,
        avatar := avatar, createdBy := some userId } with
  | (Except.error _, db1) => (Except.error 400, db1)
  | (Except.ok conv, db1) =>
    match addConversationMember db1 conv.id userId with
    | (Except.error _, db2) => (Except.error 400, db2)
    | (Except.ok _, db2) =>
      match addMembersLoop conv.id db2 memberIds with
      | (Except.error e, db3) => (Except.error e, db3)
      | (Except.ok _, db3) => (Except.ok conv, db3)

/-- Embeds `GET /api/conversations/:id/messages`: query parameters absent
from the request fall back to limit 50 and offset 0. -/
def getMessagesRoute (db : DB) (cid : Nat)
    (limit offset : Option Nat) : List HistoryEntry :=
  getConversationMessages db cid (limit.getD 50) (offset.getD 0)

/-- Embeds the `wss.on('connection')` handler: when the URL carried a user
id, register the socket (last registration wins) and mark the user online;
without a user id nothing happens. -/
def wsConnect (s : Server) (userId : Option Nat) : Server :=
  match userId with
  | some uid =>
    { db := updateUserOnlineStatus s.db uid true,
      connections := connSet s.connections uid { isOpen := true, inbox := [] } }
  | none => s

/-- Embeds the `ws.on('close')` handler: when the connection carried a user
id, drop it from the map and mark the user offline (which stamps
`lastSeen` with the current time). -/
def wsClose (s : Server) (userId : Option Nat) : Server :=
  match userId with
  | some uid =>
    { db := updateUserOnlineStatus s.db uid false,
      connections := s.connections.filter (fun p => p.1 != uid) }
  | none => s

/-- Well-formedness of a database state: stored ids are pairwise distinct
within each table and below the id generator, so a freshly generated id is
new. -/
def DBWF (db : DB) : Prop :=
  (db.users.map User.id).Nodup ∧
  (db.conversations.map Conversation.id).Nodup ∧
  (db.conversationMembers.map ConversationMember.id).Nodup ∧
  (db.messages.map Message.id).Nodup ∧
  (db.calls.map Call.id).Nodup ∧
  (∀ u ∈ db.users, u.id < db.nextId) ∧
  (∀ c ∈ db.conversations, c.id < db.nextId) ∧
  (∀ m ∈ db.conversationMembers, m.id < db.nextId) ∧
  (∀ m ∈ db.messages, m.id < db.nextId) ∧
  (∀ c ∈ db.calls, c.id < db.nextId)

instance (db : DB) : Decidable (DBWF db) := by
  unfold DBWF; infer_instance

/-- The first messages row with the given id (the row an id identifies,
unique in a well-formed state). -/
def getMessage (db : DB) (mid : Nat) : Option Message :=
  db.messages.find? (fun m => m.id == mid)

/-- How many membership rows the table holds for a (conversation, user)
pair. -/
def pairCount (db : DB) (cid uid : Nat) : Nat :=
  (db.conversationMembers.filter
    (fun m => m.conversationId == cid && m.userId == uid)).length

/-- One operand of the INTERSECT in `getOrCreateDirectConversation`: the
non-group conversations having the given user as a member. -/
def convsWith (db : DB) (uid : Nat) : List Conversation :=
  db.conversations.filter (fun c => !c.isGroup && isMember db c.id uid)

/-- Case-insensitive substring containment, following the claim's words:
the lower-cased query occurs contiguously in the lower-cased field. -/
def substringCI (q s : String) : Bool :=
  (List.range (s.data.length + 1)).any (fun i =>
    ((s.data.map Char.toLower).drop i).take q.data.length ==
      q.data.map Char.toLower)

/-- The page of the spec-side reading of `history`: the conversation's
non-deleted messages, newest-first, after skipping `offset` and keeping
`limit`. -/
def specPage (db : DB) (cid limit offset : Nat) : List Message :=
  ((sortByKeyDesc Message.createdAt
      (db.messages.filter
        (fun m => m.conversationId == cid && !m.isDeleted))).drop
    offset).take limit

/-- The spec-side reply join: the reply target message, looked up by id,
with its sender. -/
def replyJoinSpec (db : DB) (i : Nat) : Option MsgSender :=
  (getMessage db i).bind (fun t =>
    (getUser db t.senderId).map (fun su => { message := t, sender := su }))

/-- Modelled from the spec's words for `history(conversationId, limit,
offset)`: non-deleted messages of the conversation, newest-first, after
skipping `offset` and keeping `limit`, reversed to oldest-first, each
joined with its sender and, when present, with the reply target message and
that target's sender. -/
def historySpec (db : DB) (cid limit offset : Nat) : List HistoryEntry :=
  ((specPage db cid limit offset).filterMap (fun m =>
    (getUser db m.senderId).map (fun u =>
      { message := m, sender := u,
        replyTo := m.replyToId.bind (replyJoinSpec db) }))).reverse

/-- Placeholder user value used only to phrase total functions in proofs. -/
def dummyUser : User :=
  { id := 0, username := "", email := "", password := "", avatar := none,
    isOnline := false, lastSeen := none, createdAt := 0 }

/-- The sender join as a total function, defaulting an absent sender; on a
database whose messages all have resolvable senders it agrees with the
inner join. -/
def senderJoin (db : DB) (m : Message) : MsgSender :=
  { message := m, sender := (getUser db m.senderId).getD dummyUser }

/-- The sender join as a partial function: exactly one row per message
whose sender resolves. -/
def joinSender (db : DB) (m : Message) : Option MsgSender :=
  (getUser db m.senderId).map (fun u => { message := m, sender := u })

/-- Delivery of exactly one envelope: the two connection lists line up, keys
and closed connections untouched, every open connection's inbox extended by
exactly the given envelope. -/
def deliveredOnce (env : Envelope) (conns target : List (Nat × Conn)) : Prop :=
  List.Forall₂ (fun p q => p.1 = q.1 ∧
    (p.2.isOpen = true → q.2.isOpen = true ∧ q.2.inbox = p.2.inbox ++ [env]) ∧
    (p.2.isOpen = false → q.2 = p.2)) conns target

/-! Concrete states used by the witnesses and counterexamples. -/

/-- Sample user, id 1. -/
def uAlice : User :=
  { id := 1, username := "alice", email := "alice@x.com", password := "p",
    avatar := none, isOnline := false, lastSeen := none, createdAt := 0 }

/-- Sample user, id 2. -/
def uBob : User :=
  { id := 2, username := "bob", email := "bob@x.com", password := "p",
    avatar := none, isOnline := false, lastSeen := none, createdAt := 0 }

/-- Sample user whose username matches the ILIKE pattern of the query
`"a%b"` without containing it as a substring. -/
def uAxxb : User :=
  { id := 3, username := "axxb", email := "q@q", password := "p",
    avatar := none, isOnline := false, lastSeen := none, createdAt := 0 }

/-- Sample direct conversation between users 1 and 2, id 7. -/
def cDirect : Conversation :=
  { id := 7, name := none, description := none, isGroup := false,
    avatar := none, createdBy := some 1, createdAt := 0 }

/-- Sample soft-deleted message, id 4. -/
def mDel : Message :=
  { id := 4, conversationId := 7, senderId := 1, content := some "old",
    type := "text", fileUrl := none, fileName := none, fileSize := none,
    replyToId := none, isDeleted := true, createdAt := 10 }

/-- Sample message replying to the deleted message 4, id 5. -/
def mReply : Message :=
  { id := 5, conversationId := 7, senderId := 2, content := some "re",
    type := "text", fileUrl := none, fileName := none, fileSize := none,
    replyToId := some 4, isDeleted := false, createdAt := 20 }

/-- Sample plain message, id 6. -/
def mPlain : Message :=
  { id := 6, conversationId := 7, senderId := 1, content := some "hi",
    type := "text", fileUrl := none, fileName := none, fileSize := none,
    replyToId := none, isDeleted := false, createdAt := 30 }

/-- Sample database: three users, one direct conversation between 1 and 2
with two membership rows, three messages. -/
def dbW : DB :=
  { users := [uAlice, uBob, uAxxb], conversations := [cDirect],
    conversationMembers :=
      [{ id := 8, conversationId := 7, userId := 1, joinedAt := 0 },
       { id := 9, conversationId := 7, userId := 2, joinedAt := 0 }],
    messages := [mDel, mReply, mPlain], calls := [], nextId := 10, now := 100 }

/-- Sample server: the sample database with user 1 on an open connection
and user 2 on a connection that is no longer OPEN. -/
def sW : Server :=
  { db := dbW,
    connections := [(1, { isOpen := true, inbox := [] }),
                    (2, { isOpen := false, inbox := [] })] }

/-- The message `POST /api/conversations/:id/messages` persists when user 1
sends "hi" to conversation 7 of the sample database. -/
def mNew : Message :=
  { id := 10, conversationId := 7, senderId := 1, content := some "hi",
    type := "text", fileUrl := none, fileName := none, fileSize := none,
    replyToId := none, isDeleted := false, createdAt := 100 }

/-- The call `POST /api/calls` persists when user 1 starts a voice call in
conversation 7 of the sample database. -/
def callNew : Call :=
  { id := 10, conversationId := 7, callerId := 1, type := "voice",
    status := "pending", startedAt := 100, endedAt := none }

/-- Sample run of `POST /api/conversations`: user 1 creates the group
"Team" with requested members 2 and 99, where no user 99 exists. -/
def c6run : Except Nat Conversation × DB :=
  postConversationsRoute dbW 1 (some "Team") none (some true) none [2, 99]

/-- Shorthand for a membership row, used when stating intermediate states
in proofs. -/
def memberRow (i cid uid t : Nat) : ConversationMember :=
  { id := i, conversationId := cid, userId := uid, joinedAt := t }

/-! General list lemmas used by the claim proofs. -/

theorem find?_map_pres {α : Type} (g : α → α) (p : α → Bool)
    (h : ∀ x, p (g x) = p x) (l : List α) :
    (l.map g).find? p = (l.find? p).map g := by
  induction l with
  | nil => rfl
  | cons a l ih =>
    simp only [List.map_cons, List.find?_cons]
    rw [h a]
    cases hpa : p a
    · simpa [hpa] using ih
    · simp [hpa]

theorem find?_eq_head?_filter {α : Type} (p : α → Bool) (l : List α) :
    l.find? p = (l.filter p).head? := by
  induction l with
  | nil => rfl
  | cons a l ih =>
    cases hpa : p a
    · simp only [List.find?_cons, hpa, List.filter_cons, cond_false]
      exact ih
    · simp [List.find?_cons, hpa, List.filter_cons]

theorem filter_key_eq_toList {α : Type} (f : α → Nat) (l : List α)
    (hl : (l.map f).Nodup) (i : Nat) :
    l.filter (fun x => f x == i) = (l.find? (fun x => f x == i)).toList := by
  induction l with
  | nil => rfl
  | cons a l ih =>
    simp only [List.map_cons, List.nodup_cons] at hl
    cases hfa : (f a == i)
    · simpa [List.filter_cons, hfa, List.find?_cons] using ih hl.2
    · simp only [List.filter_cons, hfa, List.find?_cons, Option.toList_some,
        cond_true]
      have hfl : l.filter (fun x => f x == i) = [] := by
        refine List.filter_eq_nil_iff.mpr (fun x hx hpx => ?_)
        have hx1 : f x = i := by simpa using hpx
        have hfa1 : f a = i := by simpa using hfa
        exact hl.1 (by simpa [hfa1, hx1] using List.mem_map_of_mem f hx)
      simp [hfl]

theorem flatMap_toList_eq_filterMap {α β : Type} (g : α → Option β)
    (l : List α) :
    (l.flatMap (fun x => (g x).toList)) = l.filterMap g := by
  induction l with
  | nil => rfl
  | cons a l ih =>
    cases hga : g a <;>
      simp [List.flatMap_cons, List.filterMap_cons, hga, ih]

theorem filterMap_eq_map_of {α β : Type} (g : α → Option β) (f : α → β)
    (l : List α) (h : ∀ x ∈ l, g x = some (f x)) :
    l.filterMap g = l.map f := by
  induction l with
  | nil => rfl
  | cons a l ih =>
    rw [List.filterMap_cons, h a (by simp), List.map_cons,
      ih (fun x hx => h x (by simp [hx]))]

theorem filter_filterMap_comm {α β : Type} (g : α → Option β)
    (p : β → Bool) (q : α → Bool) (l : List α)
    (h : ∀ x r, g x = some r → p r = q x) :
    (l.filterMap g).filter p = (l.filter q).filterMap g := by
  induction l with
  | nil => rfl
  | cons a l ih =>
    rw [List.filterMap_cons, List.filter_cons]
    cases hga : g a
    · cases hqa : q a <;> simp [hqa, List.filterMap_cons, hga, ih]
    · rename_i r
      have hpr := h a r hga
      rw [List.filter_cons]
      cases hqa : q a <;>
        simp [hqa, hpr.trans hqa, List.filterMap_cons, hga, ih]

theorem mem_insertByKeyDesc {α : Type} (key : α → Nat) (a x : α)
    (l : List α) :
    x ∈ insertByKeyDesc key a l ↔ x = a ∨ x ∈ l := by
  induction l with
  | nil => simp [insertByKeyDesc]
  | cons b l ih =>
    by_cases hba : key b ≤ key a
    · simp [insertByKeyDesc, hba]
    · simp [insertByKeyDesc, hba, ih]
      tauto

theorem mem_sortByKeyDesc {α : Type} (key : α → Nat) (x : α) (l : List α) :
    x ∈ sortByKeyDesc key l ↔ x ∈ l := by
  induction l with
  | nil => simp [sortByKeyDesc]
  | cons a l ih =>
    simp only [sortByKeyDesc, List.foldr_cons] at *
    rw [mem_insertByKeyDesc, ih, List.mem_cons]

theorem pairwise_insertByKeyDesc {α : Type} (key : α → Nat) (a : α)
    (l : List α) (h : l.Pairwise (fun x y => key y ≤ key x)) :
    (insertByKeyDesc key a l).Pairwise (fun x y => key y ≤ key x) := by
  induction l with
  | nil => simp [insertByKeyDesc]
  | cons b l ih =>
    rcases List.pairwise_cons.mp h with ⟨hb, hl⟩
    by_cases hba : key b ≤ key a
    · rw [show insertByKeyDesc key a (b :: l) =
          if key b ≤ key a then a :: b :: l
          else b :: insertByKeyDesc key a l from rfl, if_pos hba]
      refine List.pairwise_cons.mpr ⟨?_, h⟩
      intro y hy
      rcases List.mem_cons.mp hy with rfl | hy2
      · exact hba
      · exact le_trans (hb y hy2) hba
    · rw [show insertByKeyDesc key a (b :: l) =
          if key b ≤ key a then a :: b :: l
          else b :: insertByKeyDesc key a l from rfl, if_neg hba]
      refine List.pairwise_cons.mpr ⟨?_, ih hl⟩
      intro y hy
      rcases (mem_insertByKeyDesc key a y l).mp hy with rfl | hy2
      · exact le_of_not_le hba
      · exact hb y hy2

theorem pairwise_sortByKeyDesc {α : Type} (key : α → Nat) (l : List α) :
    (sortByKeyDesc key l).Pairwise (fun x y => key y ≤ key x) := by
  induction l with
  | nil => simp [sortByKeyDesc]
  | cons a l ih => exact pairwise_insertByKeyDesc key a _ ih

theorem insertByKeyDesc_map {α β : Type} (f : α → β) (key : β → Nat)
    (a : α) (l : List α) :
    insertByKeyDesc key (f a) (l.map f) =
      (insertByKeyDesc (fun x => key (f x)) a l).map f := by
  induction l with
  | nil => rfl
  | cons b l ih =>
    by_cases hba : key (f b) ≤ key (f a)
    · simp [insertByKeyDesc, hba]
    · simp [insertByKeyDesc, hba, ih]

theorem sortByKeyDesc_map {α β : Type} (f : α → β) (key : β → Nat)
    (l : List α) :
    sortByKeyDesc key (l.map f) =
      (sortByKeyDesc (fun x => key (f x)) l).map f := by
  induction l with
  | nil => rfl
  | cons a l ih =>
    simp only [sortByKeyDesc, List.foldr_cons, List.map_cons] at *
    rw [ih, insertByKeyDesc_map]

theorem broadcast_delivers (conns : List (Nat × Conn)) (env : Envelope) :
    deliveredOnce env conns (broadcast conns env) := by
  induction conns with
  | nil => exact List.Forall₂.nil
  | cons p conns ih =>
    cases hop : p.2.isOpen
    · refine List.Forall₂.cons ?_ ih
      simp [broadcast, hop]
    · refine List.Forall₂.cons ?_ ih
      simp [broadcast, hop]

/-! Claim C10. -/

/-- C10, counterexample: for the query `"a%b"` the user `"axxb"` is
returned by `searchUsers` — the `%` in the query acts as an ILIKE wildcard —
although `"a%b"` is not a case-insensitive substring of the username or the
email, so "every returned user matches the query case-insensitively as a
substring" fails as stated. -/
theorem searchUsers_substring_cex :
    searchUsers dbW "a%b" 0 = [uAxxb] ∧
    substringCI "a%b" uAxxb.username = false ∧
    substringCI "a%b" uAxxb.email = false := by decide

/-- C10 (amended): `searchUsers(query, excludeUserId)` returns at most 20
users, never the excluded id, and every returned user's username or email
matches `%query%` as a case-insensitive SQL LIKE pattern (so `%` and `_` in
the query are wildcards; for queries without wildcard characters this is
substring matching). -/
theorem searchUsers_like_spec (db : DB) (q : String) (ex : Nat) :
    (searchUsers db q ex).length ≤ 20 ∧
    ∀ u ∈ searchUsers db q ex, u.id ≠ ex ∧
      (ilikeContains q u.username = true ∨ ilikeContains q u.email = true) := by
  constructor
  · exact List.length_take_le 20 _
  · intro u hu
    have h1 := List.mem_of_mem_take hu
    have h2 := (List.mem_filter.mp h1).2
    simp only [Bool.and_eq_true, Bool.or_eq_true, bne_iff_ne, ne_eq] at h2
    exact ⟨h2.2, h2.1⟩

/-! Claim C7. -/

/-- C7, counterexample: in the sample state the pair (conversation 7,
user 1) already has a membership row; inserting it again raises no error —
nothing is reported to the caller — and a second row for the same pair is
stored, so membership rows do not stay unique per pair. -/
theorem duplicate_membership_cex :
    (addConversationMember dbW 7 1).1 = Except.ok () ∧
    pairCount (addConversationMember dbW 7 1).2 7 1 = 2 :=
  ⟨rfl, by decide⟩

/-- C7 (amended): inserting a membership pair that already exists is not a
constraint violation and is not reported: the schema has no per-pair
uniqueness constraint (and the statement's `onConflictDoNothing` would
silently swallow a unique conflict rather than surface one), so the insert
succeeds and a further row for the pair is stored. -/
theorem addConversationMember_duplicate_silent (db : DB) (cid uid : Nat)
    (hc : convExists db cid = true) (hu : userExists db uid = true)
    (hdup : isMember db cid uid = true) :
    (addConversationMember db cid uid).1 = Except.ok () ∧
    pairCount (addConversationMember db cid uid).2 cid uid =
      pairCount db cid uid + 1 ∧
    1 ≤ pairCount db cid uid := by
  refine ⟨?_, ?_, ?_⟩
  · simp [addConversationMember, hc, hu]
  · simp [addConversationMember, hc, hu, pairCount, List.filter_append]
  · rcases List.any_eq_true.mp hdup with ⟨m, hm, hp⟩
    have hmem : m ∈ db.conversationMembers.filter
        (fun m => m.conversationId == cid && m.userId == uid) :=
      List.mem_filter.mpr ⟨hm, hp⟩
    exact List.length_pos.mpr (List.ne_nil_of_mem hmem)

/-- C7, non-vacuity witness for the amended theorem at the sample state. -/
theorem addConversationMember_duplicate_silent_witness :
    (addConversationMember dbW 7 1).1 = Except.ok () ∧
    pairCount (addConversationMember dbW 7 1).2 7 1 = pairCount dbW 7 1 + 1 ∧
    1 ≤ pairCount dbW 7 1 :=
  addConversationMember_duplicate_silent dbW 7 1 (by decide) (by decide)
    (by decide)

/-! Claim C9. -/

/-- C9: after the connection handshake carries a user identity, a read of
that user shows the online flag true (last-seen untouched); after the
connection closes, a read shows the flag false and the last-seen stamped
with the time of the disconnection. -/
theorem presence_flags (s t : Server) (uid : Nat) (u v : User)
    (hc : getUser s.db uid = some u) (hd : getUser t.db uid = some v) :
    getUser (wsConnect s (some uid)).db uid = some { u with isOnline := true } ∧
    getUser (wsClose t (some uid)).db uid =
      some { v with isOnline := false, lastSeen := some t.db.now } := by
  have key : ∀ (db : DB) (b : Bool) (w : User), getUser db uid = some w →
      getUser (updateUserOnlineStatus db uid b) uid =
        some { w with isOnline := b,
                      lastSeen := if b then w.lastSeen else some db.now } := by
    intro db b w hw
    have hpres : ∀ x : User,
        ((if x.id == uid then
            { x with isOnline := b,
                     lastSeen := if b then x.lastSeen else some db.now }
          else x).id == uid) = (x.id == uid) := by
      intro x
      cases hx : (x.id == uid) <;> simp [hx]
    have := find?_map_pres
      (fun x : User =>
        if x.id == uid then
          { x with isOnline := b,
                   lastSeen := if b then x.lastSeen else some db.now }
        else x)
      (fun x : User => x.id == uid) hpres db.users
    unfold getUser updateUserOnlineStatus
    unfold getUser at hw
    rw [this, hw]
    have hw2 := List.find?_some (p := fun u : User => u.id == uid) hw
    simp only [] at hw2
    have hw3 : w.id = uid := by simpa using hw2
    simp [hw3]
  refine ⟨?_, ?_⟩
  · have h1 := key s.db true u hc
    simpa [wsConnect] using h1
  · have h2 := key t.db false v hd
    simpa [wsClose] using h2

/-- C9, non-vacuity witness at the sample server with user 1. -/
theorem presence_flags_witness :
    getUser (wsConnect sW (some 1)).db 1 = some { uAlice with isOnline := true } ∧
    getUser (wsClose sW (some 1)).db 1 =
      some { uAlice with isOnline := false, lastSeen := some sW.db.now } :=
  presence_flags sW sW 1 uAlice uAlice (by decide) (by decide)

/-! Claim C4. -/

/-- C4: `delete(messageId, requesterId)` sets the soft-delete flag exactly
when the stored message with that id has the requester as sender, returns
true exactly in that case (false for an unknown id or a non-owner), leaves
every message with a different id unchanged — no cascading deletion — and
touches no other table. -/
theorem deleteMessage_owner_only (db : DB) (mid uid : Nat)
    (hn : (db.messages.map Message.id).Nodup) :
    ((deleteMessage db mid uid).1 = true ↔
      ∃ m ∈ db.messages, m.id = mid ∧ m.senderId = uid) ∧
    (∀ m, getMessage db mid = some m → m.senderId = uid →
      getMessage (deleteMessage db mid uid).2 mid =
        some { m with isDeleted := true } ∧
      (deleteMessage db mid uid).1 = true) ∧
    (∀ m, getMessage db mid = some m → m.senderId ≠ uid →
      getMessage (deleteMessage db mid uid).2 mid = some m ∧
      (deleteMessage db mid uid).1 = false) ∧
    (getMessage db mid = none →
      (deleteMessage db mid uid).1 = false ∧
      (deleteMessage db mid uid).2 = db) ∧
    (∀ m ∈ db.messages, m.id ≠ mid → m ∈ (deleteMessage db mid uid).2.messages) ∧
    (deleteMessage db mid uid).2.users = db.users ∧
    (deleteMessage db mid uid).2.conversations = db.conversations ∧
    (deleteMessage db mid uid).2.conversationMembers = db.conversationMembers ∧
    (deleteMessage db mid uid).2.calls = db.calls := by
  have hpres : ∀ m : Message,
      ((if m.id == mid && m.senderId == uid then
          { m with isDeleted := true } else m).id == mid) = (m.id == mid) := by
    intro m
    cases hm : (m.id == mid && m.senderId == uid) <;> simp [hm]
  have hmap := find?_map_pres
    (fun m : Message =>
      if m.id == mid && m.senderId == uid then { m with isDeleted := true }
      else m)
    (fun m : Message => m.id == mid) hpres db.messages
  refine ⟨?_, ?_, ?_, ?_, ?_, rfl, rfl, rfl, rfl⟩
  · simp only [deleteMessage, List.any_eq_true, Bool.and_eq_true, beq_iff_eq]
  · intro m hm hs
    unfold getMessage at hm
    have hid := List.find?_some (p := fun m : Message => m.id == mid) hm
    simp only [] at hid
    have hid2 : m.id = mid := by simpa using hid
    constructor
    · show ((db.messages.map _).find? _) = _
      rw [hmap, hm]
      simp [hid2, hs]
    · simp only [deleteMessage, List.any_eq_true, Bool.and_eq_true, beq_iff_eq]
      exact ⟨m, List.mem_of_find?_eq_some hm, by simpa using hid, hs⟩
  · intro m hm hs
    unfold getMessage at hm
    have hid := List.find?_some (p := fun m : Message => m.id == mid) hm
    simp only [] at hid
    have hmem := List.mem_of_find?_eq_some hm
    constructor
    · show ((db.messages.map _).find? _) = _
      rw [hmap, hm]
      simp [hs]
    · have hfalse : (db.messages.any
          (fun m => m.id == mid && m.senderId == uid)) = false := by
        refine List.any_eq_false.mpr (fun m2 hm2 hp => ?_)
        simp only [Bool.and_eq_true, beq_iff_eq] at hp
        have : m2 = m := List.inj_on_of_nodup_map hn hm2 hmem
          (by rw [hp.1]; exact (beq_iff_eq.mp hid).symm)
        exact hs (this ▸ hp.2)
      simpa [deleteMessage] using hfalse
  · intro hnone
    unfold getMessage at hnone
    have hall := List.find?_eq_none.mp hnone
    have hfalse : (db.messages.any
        (fun m => m.id == mid && m.senderId == uid)) = false := by
      refine List.any_eq_false.mpr (fun m2 hm2 hp => ?_)
      simp only [Bool.and_eq_true] at hp
      exact hall m2 hm2 hp.1
    refine ⟨by simpa [deleteMessage] using hfalse, ?_⟩
    have hmapid : db.messages.map
        (fun m : Message =>
          if m.id == mid && m.senderId == uid then
            { m with isDeleted := true } else m) = db.messages := by
      rw [List.map_congr_left (fun m hm => ?_), List.map_id]
      have hidf : (m.id == mid) = false := by
        have := hall m hm
        simpa using this
      simp [hidf]
    show ({ db with messages := _ } : DB) = db
    rw [hmapid]
  · intro m hm hne
    refine List.mem_map.mpr ⟨m, hm, ?_⟩
    have hidf : (m.id == mid) = false := by simpa using hne
    simp [hidf]

/-- C4, non-vacuity witness: the sample owner deletion of message 6 by
user 1. -/
theorem deleteMessage_owner_only_witness :
    ((deleteMessage dbW 6 1).1 = true ↔
      ∃ m ∈ dbW.messages, m.id = 6 ∧ m.senderId = 1) ∧
    (∀ m, getMessage dbW 6 = some m → m.senderId = 1 →
      getMessage (deleteMessage dbW 6 1).2 6 =
        some { m with isDeleted := true } ∧
      (deleteMessage dbW 6 1).1 = true) ∧
    (∀ m, getMessage dbW 6 = some m → m.senderId ≠ 1 →
      getMessage (deleteMessage dbW 6 1).2 6 = some m ∧
      (deleteMessage dbW 6 1).1 = false) ∧
    (getMessage dbW 6 = none →
      (deleteMessage dbW 6 1).1 = false ∧ (deleteMessage dbW 6 1).2 = dbW) ∧
    (∀ m ∈ dbW.messages, m.id ≠ 6 → m ∈ (deleteMessage dbW 6 1).2.messages) ∧
    (deleteMessage dbW 6 1).2.users = dbW.users ∧
    (deleteMessage dbW 6 1).2.conversations = dbW.conversations ∧
    (deleteMessage dbW 6 1).2.conversationMembers = dbW.conversationMembers ∧
    (deleteMessage dbW 6 1).2.calls = dbW.calls :=
  deleteMessage_owner_only dbW 6 1 (by decide)

/-! Claim C8. -/

/-- C8: each successful mutating operation — message sent, message deleted,
call initiated, call status changed — broadcasts exactly one envelope of
the corresponding type (`new_message`, `message_deleted`, `call_initiated`,
`call_status_updated`) to every connection of the presence map whose state
is OPEN, with no membership scoping of any kind: closed connections are
skipped unchanged, every open one receives exactly that envelope. -/
theorem fanout_all_connections
    (s1 s2 s3 s4 t1 t2 t3 t4 : Server)
    (u1 c1 : Nat) (content ty fu fn : Option String) (fs : Option Int)
    (rep : Option Nat) (m : Message) (sd : Option User)
    (u2 mid : Nat)
    (u3 c3 : Nat) (ty3 : String) (st3 : Option String) (call : Call)
    (cid4 : Nat) (st4 : String)
    (h1 : postMessageRoute s1 u1 c1 content ty fu fn fs rep =
      (Except.ok (m, sd), t1))
    (h2 : deleteMessageRoute s2 u2 mid = (Except.ok (), t2))
    (h3 : postCallRoute s3 u3 c3 ty3 st3 = (Except.ok call, t3))
    (h4 : patchCallRoute s4 cid4 st4 = (Except.ok (), t4)) :
    deliveredOnce { type := "new_message", data := EventData.newMessage m sd }
      s1.connections t1.connections ∧
    deliveredOnce { type := "message_deleted",
                    data := EventData.messageDeleted mid }
      s2.connections t2.connections ∧
    deliveredOnce { type := "call_initiated",
                    data := EventData.callInitiated call }
      s3.connections t3.connections ∧
    deliveredOnce { type := "call_status_updated",
                    data := EventData.callStatusUpdated cid4 st4 }
      s4.connections t4.connections := by
  refine ⟨?_, ?_, ?_, ?_⟩
  · unfold postMessageRoute at h1
    rcases hcm : createMessage s1.db
        { conversationId := c1, senderId := u1, content := content,
          type := ty, fileUrl := fu, fileName := fn, fileSize := fs,
          replyToId := rep } with ⟨r, db1⟩
    rw [hcm] at h1
    cases r with
    | error e => simp at h1
    | ok pr =>
      simp only [Prod.mk.injEq, Except.ok.injEq, Prod.ext_iff] at h1
      rcases h1 with ⟨⟨hm1, hm2⟩, ht⟩
      rw [← ht, ← hm1, ← hm2]
      exact broadcast_delivers s1.connections _
  · unfold deleteMessageRoute at h2
    rcases hdm : deleteMessage s2.db mid u2 with ⟨ok, db1⟩
    rw [hdm] at h2
    cases ok with
    | false => simp at h2
    | true =>
      simp only [Prod.mk.injEq] at h2
      rw [← h2.2]
      exact broadcast_delivers s2.connections _
  · unfold postCallRoute at h3
    rcases hcc : createCall s3.db
        { conversationId := c3, callerId := u3, type := ty3,
          status := st3 } with ⟨r, db1⟩
    rw [hcc] at h3
    cases r with
    | error e => simp at h3
    | ok c =>
      simp only [Prod.mk.injEq, Except.ok.injEq] at h3
      rcases h3 with ⟨hc, ht⟩
      rw [← ht, ← hc]
      exact broadcast_delivers s3.connections _
  · unfold patchCallRoute at h4
    simp only [Prod.mk.injEq] at h4
    rw [← h4.2]
    exact broadcast_delivers s4.connections _

/-- C8, non-vacuity witness: the four mutating routes run on the sample
server, whose presence map holds one open and one closed connection. -/
theorem fanout_all_connections_witness :
    deliveredOnce { type := "new_message",
                    data := EventData.newMessage mNew (some uAlice) }
      sW.connections
      (postMessageRoute sW 1 7 (some "hi") none none none none none).2.connections ∧
    deliveredOnce { type := "message_deleted",
                    data := EventData.messageDeleted 6 }
      sW.connections (deleteMessageRoute sW 1 6).2.connections ∧
    deliveredOnce { type := "call_initiated",
                    data := EventData.callInitiated callNew }
      sW.connections (postCallRoute sW 1 7 "voice" none).2.connections ∧
    deliveredOnce { type := "call_status_updated",
                    data := EventData.callStatusUpdated 42 "active" }
      sW.connections (patchCallRoute sW 42 "active").2.connections :=
  fanout_all_connections sW sW sW sW
    (postMessageRoute sW 1 7 (some "hi") none none none none none).2
    (deleteMessageRoute sW 1 6).2
    (postCallRoute sW 1 7 "voice" none).2
    (patchCallRoute sW 42 "active").2
    1 7 (some "hi") none none none none none mNew (some uAlice)
    1 6
    1 7 "voice" none callNew
    42 "active"
    rfl rfl rfl rfl

/-! Claim C6. -/

/-- C6, counterexample: user 1 creates group "Team" with member ids 2 and
99, but no user 99 exists; the request fails with 400 yet the group
conversation remains in the database with the partial member subset
{1, 2} — the operation partially succeeded. -/
theorem group_creation_not_atomic_cex :
    c6run.1 = Except.error 400 ∧
    (∃ c ∈ c6run.2.conversations, c.isGroup = true ∧ c.id = dbW.nextId ∧
      isMember c6run.2 c.id 1 = true ∧ isMember c6run.2 c.id 2 = true ∧
      isMember c6run.2 c.id 99 = false) ∧
    userExists dbW 99 = false :=
  ⟨rfl, by decide, by decide⟩

/-- Monotonicity of membership lookup under table growth. -/
theorem isMember_mono (a b : DB) (cid uid : Nat)
    (h : ∀ m ∈ a.conversationMembers, m ∈ b.conversationMembers)
    (hm : isMember a cid uid = true) : isMember b cid uid = true := by
  rcases List.any_eq_true.mp hm with ⟨m, hmem, hp⟩
  exact List.any_eq_true.mpr ⟨m, h m hmem, hp⟩

/-- The member loop stops with a 400 at the first id that does not resolve,
keeping the users and conversations tables unchanged, keeping every
membership row already present, and having added rows for all the ids
processed before the failing one. -/
theorem addMembersLoop_invalid (cid : Nat) (good : List Nat) (bad : Nat)
    (rest : List Nat) :
    ∀ db : DB, convExists db cid = true →
      (∀ g ∈ good, userExists db g = true) → userExists db bad = false →
      ∃ db1, addMembersLoop cid db (good ++ bad :: rest) =
          (Except.error 400, db1) ∧
        db1.users = db.users ∧ db1.conversations = db.conversations ∧
        (∀ m ∈ db.conversationMembers, m ∈ db1.conversationMembers) ∧
        (∀ g ∈ good, isMember db1 cid g = true) := by
  induction good with
  | nil =>
    intro db hc hgood hbad
    refine ⟨db, ?_, rfl, rfl, fun m hm => hm, fun g hg => absurd hg (by simp)⟩
    rw [List.nil_append]
    rw [show addMembersLoop cid db (bad :: rest) =
        (match addConversationMember db cid bad with
         | (Except.error _, db1) => (Except.error 400, db1)
         | (Except.ok _, db1) => addMembersLoop cid db1 rest) from rfl]
    rw [show addConversationMember db cid bad =
        (if (convExists db cid && userExists db bad) = true then
          (Except.ok (),
           { db with conversationMembers := db.conversationMembers ++ [memberRow db.nextId cid bad db.now],
                     nextId := db.nextId + 1 })
         else (Except.error DBErr.fkViolation, db)) from rfl]
    rw [hbad]
    simp
  | cons g good ih =>
    intro db hc hgood hbad
    have hg : userExists db g = true := hgood g (by simp)
    set db1 : DB :=
      { db with conversationMembers := db.conversationMembers ++ [memberRow db.nextId cid g db.now],
                nextId := db.nextId + 1 } with hdb1
    have hstep : addConversationMember db cid g = (Except.ok (), db1) := by
      rw [show addConversationMember db cid g =
          (if (convExists db cid && userExists db g) = true then
            (Except.ok (), db1)
           else (Except.error DBErr.fkViolation, db)) from rfl]
      rw [hc, hg]
      simp
    have hc1 : convExists db1 cid = true := hc
    have hgood1 : ∀ x ∈ good, userExists db1 x = true :=
      fun x hx => hgood x (by simp [hx])
    have hbad1 : userExists db1 bad = false := hbad
    rcases ih db1 hc1 hgood1 hbad1 with ⟨db2, hloop, hus, hconv, hmono, hmem⟩
    refine ⟨db2, ?_, hus, hconv, ?_, ?_⟩
    · show addMembersLoop cid db ((g :: good) ++ bad :: rest) = _
      rw [List.cons_append]
      rw [show addMembersLoop cid db (g :: (good ++ bad :: rest)) =
          (match addConversationMember db cid g with
           | (Except.error _, dbx) => (Except.error 400, dbx)
           | (Except.ok _, dbx) =>
              addMembersLoop cid dbx (good ++ bad :: rest)) from rfl]
      rw [hstep]
      exact hloop
    · intro m hm
      exact hmono m (by simp [hdb1, hm])
    · intro x hx
      rcases List.mem_cons.mp hx with rfl | hx2
      · refine isMember_mono db1 db2 cid x hmono ?_
        refine List.any_eq_true.mpr
          ⟨memberRow db.nextId cid x db.now, by simp [hdb1], by simp [memberRow]⟩
      · exact hmem x hx2

/-- C6 (amended): group creation with a member-id list is not
all-or-nothing: when some requested member id does not resolve, the request
fails with 400, but the group conversation together with the creator's
membership and the members processed before the failing id remains in the
database — the operation partially succeeds. -/
theorem postConversations_partial (db : DB) (uid : Nat)
    (name desc : Option String) (isG : Option Bool) (av : Option String)
    (good : List Nat) (bad : Nat) (rest : List Nat)
    (hu : userExists db uid = true)
    (hgood : ∀ g ∈ good, userExists db g = true)
    (hbad : userExists db bad = false) :
    ∃ db1, postConversationsRoute db uid name desc isG av
        (good ++ bad :: rest) = (Except.error 400, db1) ∧
      ∃ c ∈ db1.conversations, c.id = db.nextId ∧
        isMember db1 c.id uid = true ∧
        ∀ g ∈ good, isMember db1 c.id g = true := by
  set c : Conversation :=
    { id := db.nextId, name := name, description := desc,
      isGroup := isG.getD false, avatar := av, createdBy := some uid,
      createdAt := db.now } with hcdef
  set dbA : DB :=
    { db with conversations := db.conversations ++ [c],
              nextId := db.nextId + 1 } with hdbA
  have hcreate : createConversation db
      { name := name, description := desc, isGroup := isG, avatar := av,
        createdBy := some uid } = (Except.ok c, dbA) := by
    rw [show createConversation db
        { name := name, description := desc, isGroup := isG, avatar := av,
          createdBy := some uid } =
        (if userExists db uid = true then (Except.ok c, dbA)
         else (Except.error DBErr.fkViolation, db)) from rfl]
    rw [if_pos hu]
  have hcA : convExists dbA c.id = true := by
    refine List.any_eq_true.mpr ⟨c, by simp [hdbA], by simp⟩
  set dbB : DB :=
    { dbA with conversationMembers := dbA.conversationMembers ++ [memberRow dbA.nextId c.id uid dbA.now],
               nextId := dbA.nextId + 1 } with hdbB
  have hadd : addConversationMember dbA c.id uid = (Except.ok (), dbB) := by
    rw [show addConversationMember dbA c.id uid =
        (if (convExists dbA c.id && userExists dbA uid) = true then
          (Except.ok (), dbB)
         else (Except.error DBErr.fkViolation, dbA)) from rfl]
    rw [hcA, show userExists dbA uid = true from hu]
    simp
  have hcB : convExists dbB c.id = true := hcA
  have hgoodB : ∀ g ∈ good, userExists dbB g = true := hgood
  have hbadB : userExists dbB bad = false := hbad
  rcases addMembersLoop_invalid c.id good bad rest dbB hcB hgoodB hbadB with
    ⟨db1, hloop, hus, hconv, hmono, hmem⟩
  refine ⟨db1, ?_, c, ?_, rfl, ?_, hmem⟩
  · rw [show postConversationsRoute db uid name desc isG av
        (good ++ bad :: rest) =
        (match createConversation db
            { name := name, description := desc, isGroup := isG,
              avatar := av, createdBy := some uid } with
         | (Except.error _, dbx) => (Except.error 400, dbx)
         | (Except.ok conv, dbx) =>
           match addConversationMember dbx conv.id uid with
           | (Except.error _, dby) => (Except.error 400, dby)
           | (Except.ok _, dby) =>
             match addMembersLoop conv.id dby (good ++ bad :: rest) with
             | (Except.error e, dbz) => (Except.error e, dbz)
             | (Except.ok _, dbz) => (Except.ok conv, dbz)) from rfl]
    rw [hcreate]
    show (match addConversationMember dbA c.id uid with
      | (Except.error _, dby) => (Except.error 400, dby)
      | (Except.ok _, dby) =>
        match addMembersLoop c.id dby (good ++ bad :: rest) with
        | (Except.error e, dbz) => (Except.error e, dbz)
        | (Except.ok _, dbz) => (Except.ok c, dbz)) = _
    rw [hadd]
    show (match addMembersLoop c.id dbB (good ++ bad :: rest) with
      | (Except.error e, dbz) => (Except.error e, dbz)
      | (Except.ok _, dbz) => (Except.ok c, dbz)) = _
    rw [hloop]
  · rw [hconv]
    simp [hdbB, hdbA]
  · refine isMember_mono dbB db1 c.id uid hmono ?_
    refine List.any_eq_true.mpr
      ⟨memberRow dbA.nextId c.id uid dbA.now, by simp [hdbB],
       by simp [memberRow]⟩

/-- C6, non-vacuity witness for the amended theorem: the sample run with
valid member 2 and invalid member 99. -/
theorem postConversations_partial_witness :
    ∃ db1, postConversationsRoute dbW 1 (some "Team") none (some true) none
        ([2] ++ 99 :: []) = (Except.error 400, db1) ∧
      ∃ c ∈ db1.conversations, c.id = dbW.nextId ∧
        isMember db1 c.id 1 = true ∧
        ∀ g ∈ [2], isMember db1 c.id g = true :=
  postConversations_partial dbW 1 (some "Team") none (some true) none
    [2] 99 [] (by decide) (by decide) (by decide)

/-! Claims C1 and C2: direct-conversation resolution. -/

/-- The INTERSECT query is symmetric in the two users. -/
theorem directPair_comm (db : DB) (a b : Nat) :
    directPair db b a = directPair db a b := by
  refine List.filter_congr (fun c hc => ?_)
  cases h1 : isMember db c.id a <;> cases h2 : isMember db c.id b <;>
    cases h3 : c.isGroup <;> simp [h1, h2, h3]

/-- Characterization of the create path of
`getOrCreateDirectConversation`: when the intersection is empty and both
users resolve, a fresh non-group conversation is inserted together with
exactly two membership rows for it, and everything else is untouched. -/
theorem getOrCreateDirect_create_path (db : DB) (a b : Nat)
    (h0 : directPair db a b = [])
    (ha : userExists db a = true) (hb : userExists db b = true) :
    ∃ c db3, getOrCreateDirectConversation db a b = (Except.ok c, db3) ∧
      c.id = db.nextId ∧ c.isGroup = false ∧
      db3.users = db.users ∧ db3.messages = db.messages ∧
      db3.calls = db.calls ∧ db3.now = db.now ∧
      db3.nextId = db.nextId + 3 ∧
      db3.conversations = db.conversations ++ [c] ∧
      db3.conversationMembers = db.conversationMembers ++
        [memberRow (db.nextId + 1) db.nextId a db.now,
         memberRow (db.nextId + 2) db.nextId b db.now] := by
  set c : Conversation :=
    { id := db.nextId, name := none, description := none, isGroup := false,
      avatar := none, createdBy := some a, createdAt := db.now } with hcdef
  set dbA : DB :=
    { db with conversations := db.conversations ++ [c],
              nextId := db.nextId + 1 } with hdbA
  have hcreate : createConversation db
      { name := none, description := none, isGroup := some false,
        avatar := none, createdBy := some a } = (Except.ok c, dbA) := by
    rw [show createConversation db
        { name := none, description := none, isGroup := some false,
          avatar := none, createdBy := some a } =
        (if userExists db a = true then (Except.ok c, dbA)
         else (Except.error DBErr.fkViolation, db)) from rfl]
    rw [if_pos ha]
  have hcA : convExists dbA c.id = true :=
    List.any_eq_true.mpr ⟨c, by simp [hdbA], by simp⟩
  set dbB : DB :=
    { dbA with conversationMembers := dbA.conversationMembers ++ [memberRow dbA.nextId c.id a dbA.now],
               nextId := dbA.nextId + 1 } with hdbB
  have haddA : addConversationMember dbA c.id a = (Except.ok (), dbB) := by
    rw [show addConversationMember dbA c.id a =
        (if (convExists dbA c.id && userExists dbA a) = true then
          (Except.ok (), dbB)
         else (Except.error DBErr.fkViolation, dbA)) from rfl]
    rw [hcA, show userExists dbA a = true from ha]
    simp
  have hcB : convExists dbB c.id = true := hcA
  set dbC : DB :=
    { dbB with conversationMembers := dbB.conversationMembers ++ [memberRow dbB.nextId c.id b dbB.now],
               nextId := dbB.nextId + 1 } with hdbC
  have haddB : addConversationMember dbB c.id b = (Except.ok (), dbC) := by
    rw [show addConversationMember dbB c.id b =
        (if (convExists dbB c.id && userExists dbB b) = true then
          (Except.ok (), dbC)
         else (Except.error DBErr.fkViolation, dbB)) from rfl]
    rw [hcB, show userExists dbB b = true from hb]
    simp
  refine ⟨c, dbC, ?_, rfl, rfl, rfl, rfl, rfl, rfl, rfl, ?_, ?_⟩
  · unfold getOrCreateDirectConversation
    rw [h0]
    show (match createConversation db
        { name := none, description := none, isGroup := some false,
          avatar := none, createdBy := some a } with
      | (Except.error e, db1) => (Except.error e, db1)
      | (Except.ok conv, db1) =>
        match addConversationMember db1 conv.id a with
        | (Except.error e, db2) => (Except.error e, db2)
        | (Except.ok _, db2) =>
          match addConversationMember db2 conv.id b with
          | (Except.error e, db3) => (Except.error e, db3)
          | (Except.ok _, db3) => (Except.ok conv, db3)) = _
    rw [hcreate]
    show (match addConversationMember dbA c.id a with
      | (Except.error e, db2) => (Except.error e, db2)
      | (Except.ok _, db2) =>
        match addConversationMember db2 c.id b with
        | (Except.error e, db3) => (Except.error e, db3)
        | (Except.ok _, db3) => (Except.ok c, db3)) = _
    rw [haddA]
    show (match addConversationMember dbB c.id b with
      | (Except.error e, db3) => (Except.error e, db3)
      | (Except.ok _, db3) => (Except.ok c, db3)) = _
    rw [haddB]
  · simp [hdbC, hdbB, hdbA]
  · simp [hdbC, hdbB, hdbA, hcdef]

/-- After the create path, the pair's intersection holds exactly the new
conversation: old conversations keep their old membership status (the new
rows point at the fresh id) and the new conversation qualifies. -/
theorem directPair_after_create (db db3 : DB) (a b : Nat) (c : Conversation)
    (i1 i2 t1 t2 : Nat)
    (h0 : directPair db a b = [])
    (hgrp : c.isGroup = false)
    (hfresh : ∀ cc ∈ db.conversations, cc.id ≠ c.id)
    (hconvs : db3.conversations = db.conversations ++ [c])
    (hmem : db3.conversationMembers = db.conversationMembers ++
      [memberRow i1 c.id a t1, memberRow i2 c.id b t2]) :
    directPair db3 a b = [c] := by
  have hrowmem : ∀ cid uid, (cid ≠ c.id) →
      isMember db3 cid uid = isMember db cid uid := by
    intro cid uid hne
    unfold isMember
    rw [hmem, List.any_append]
    have : ([memberRow i1 c.id a t1, memberRow i2 c.id b t2].any
        (fun m => m.conversationId == cid && m.userId == uid)) = false := by
      have hcne : (c.id == cid) = false := by
        simp only [beq_eq_false_iff_ne, ne_eq]
        exact fun h => hne h.symm
      simp [memberRow, hcne]
    rw [this, Bool.or_false]
  unfold directPair
  rw [hconvs, List.filter_append]
  have hold : db.conversations.filter
      (fun cc => !cc.isGroup && isMember db3 cc.id a && isMember db3 cc.id b)
      = [] := by
    rw [List.filter_congr (fun cc hcc => ?_)]
    · exact h0
    · rw [hrowmem cc.id a (hfresh cc hcc), hrowmem cc.id b (hfresh cc hcc)]
  have hcmem : ∀ uid, uid = a ∨ uid = b → isMember db3 c.id uid = true := by
    intro uid huid
    unfold isMember
    rw [hmem, List.any_append]
    rcases huid with rfl | rfl
    · have : ([memberRow i1 c.id uid t1, memberRow i2 c.id b t2].any
          (fun m => m.conversationId == c.id && m.userId == uid)) = true := by
        simp [memberRow]
      simp [this]
    · have : ([memberRow i1 c.id a t1, memberRow i2 c.id uid t2].any
          (fun m => m.conversationId == c.id && m.userId == uid)) = true := by
        simp [memberRow]
      simp [this]
  have hnew : [c].filter
      (fun cc => !cc.isGroup && isMember db3 cc.id a && isMember db3 cc.id b)
      = [c] := by
    rw [List.filter_cons]
    rw [hcmem a (Or.inl rfl), hcmem b (Or.inr rfl), hgrp]
    simp
  rw [hold, hnew, List.nil_append]

/-- C2: `getOrCreateDirect(userA, userB)` computes the intersection of the
non-group conversations having userA as a member with those having userB as
a member; a non-empty intersection returns its first element with the state
untouched, otherwise a fresh non-group conversation is created with both
users added as members and is returned, nothing else being written. -/
theorem getOrCreateDirect_algorithm (db : DB) (a b : Nat)
    (hwf : DBWF db) (ha : userExists db a = true)
    (hb : userExists db b = true) :
    (∀ x, x ∈ directPair db a b ↔ x ∈ convsWith db a ∧ x ∈ convsWith db b) ∧
    (∀ c rest, directPair db a b = c :: rest →
      getOrCreateDirectConversation db a b = (Except.ok c, db)) ∧
    (directPair db a b = [] →
      ∃ c db3, getOrCreateDirectConversation db a b = (Except.ok c, db3) ∧
        c.isGroup = false ∧ c ∉ db.conversations ∧
        db3.conversations = db.conversations ++ [c] ∧
        isMember db3 c.id a = true ∧ isMember db3 c.id b = true ∧
        db3.users = db.users ∧ db3.messages = db.messages ∧
        db3.calls = db.calls ∧
        ∀ m ∈ db3.conversationMembers,
          m ∈ db.conversationMembers ∨
            (m.conversationId = c.id ∧ (m.userId = a ∨ m.userId = b))) := by
  refine ⟨?_, ?_, ?_⟩
  · intro x
    simp only [directPair, convsWith, List.mem_filter, Bool.and_eq_true,
      Bool.not_eq_true']
    tauto
  · intro c rest h
    unfold getOrCreateDirectConversation
    rw [h]
  · intro h0
    rcases getOrCreateDirect_create_path db a b h0 ha hb with
      ⟨c, db3, hrun, hcid, hgrp, hus, hmsg, hcal, hnow, hnext, hconvs, hmem⟩
    refine ⟨c, db3, hrun, hgrp, ?_, hconvs, ?_, ?_, hus, hmsg, hcal, ?_⟩
    · intro hin
      have hlt := hwf.2.2.2.2.2.2.1 c hin
      rw [hcid] at hlt
      exact lt_irrefl _ hlt
    · refine List.any_eq_true.mpr
        ⟨memberRow (db.nextId + 1) db.nextId a db.now, ?_, ?_⟩
      · rw [hmem]; simp
      · simp [memberRow, hcid]
    · refine List.any_eq_true.mpr
        ⟨memberRow (db.nextId + 2) db.nextId b db.now, ?_, ?_⟩
      · rw [hmem]; simp
      · simp [memberRow, hcid]
    · intro m hm
      rw [hmem] at hm
      rcases List.mem_append.mp hm with hin | hin
      · exact Or.inl hin
      · simp only [List.mem_cons, List.not_mem_nil, or_false] at hin
        rcases hin with rfl | rfl
        · exact Or.inr (by simp [memberRow, hcid])
        · exact Or.inr (by simp [memberRow, hcid])

/-- C2, non-vacuity witness at the sample database, users 1 and 2. -/
theorem getOrCreateDirect_algorithm_witness :
    (∀ x, x ∈ directPair dbW 1 2 ↔
      x ∈ convsWith dbW 1 ∧ x ∈ convsWith dbW 2) ∧
    (∀ c rest, directPair dbW 1 2 = c :: rest →
      getOrCreateDirectConversation dbW 1 2 = (Except.ok c, dbW)) ∧
    (directPair dbW 1 2 = [] →
      ∃ c db3, getOrCreateDirectConversation dbW 1 2 = (Except.ok c, db3) ∧
        c.isGroup = false ∧ c ∉ dbW.conversations ∧
        db3.conversations = dbW.conversations ++ [c] ∧
        isMember db3 c.id 1 = true ∧ isMember db3 c.id 2 = true ∧
        db3.users = dbW.users ∧ db3.messages = dbW.messages ∧
        db3.calls = dbW.calls ∧
        ∀ m ∈ db3.conversationMembers,
          m ∈ dbW.conversationMembers ∨
            (m.conversationId = c.id ∧ (m.userId = 1 ∨ m.userId = 2))) :=
  getOrCreateDirect_algorithm dbW 1 2 (by decide) (by decide) (by decide)

/-- C1: for distinct users with at most one direct conversation between
them, resolving twice in sequence — the second call with the arguments in
either order — returns the same conversation both times, the second call
writes nothing, and afterwards at most one direct conversation exists for
the unordered pair. -/
theorem getOrCreateDirect_idempotent (db : DB) (a b : Nat)
    (_hne : a ≠ b) (hwf : DBWF db)
    (ha : userExists db a = true) (hb : userExists db b = true)
    (huniq : (directPair db a b).length ≤ 1) :
    ∃ c1 db1, getOrCreateDirectConversation db a b = (Except.ok c1, db1) ∧
      getOrCreateDirectConversation db1 a b = (Except.ok c1, db1) ∧
      getOrCreateDirectConversation db1 b a = (Except.ok c1, db1) ∧
      (directPair db1 a b).length ≤ 1 := by
  cases hdp : directPair db a b with
  | cons c rest =>
    have hfirst : getOrCreateDirectConversation db a b = (Except.ok c, db) := by
      unfold getOrCreateDirectConversation
      rw [hdp]
    have hsecond : getOrCreateDirectConversation db a b = (Except.ok c, db) :=
      hfirst
    have hswap : getOrCreateDirectConversation db b a = (Except.ok c, db) := by
      unfold getOrCreateDirectConversation
      rw [directPair_comm, hdp]
    exact ⟨c, db, hfirst, hsecond, hswap, by rw [hdp]; rw [hdp] at huniq; exact huniq⟩
  | nil =>
    rcases getOrCreateDirect_create_path db a b hdp ha hb with
      ⟨c, db3, hrun, hcid, hgrp, hus, hmsg, hcal, hnow, hnext, hconvs, hmem⟩
    have hfresh : ∀ cc ∈ db.conversations, cc.id ≠ c.id := by
      intro cc hcc
      have hlt := hwf.2.2.2.2.2.2.1 cc hcc
      rw [hcid]
      exact Nat.ne_of_lt hlt
    have hpair : directPair db3 a b = [c] := by
      refine directPair_after_create db db3 a b c (db.nextId + 1)
        (db.nextId + 2) db.now db.now hdp hgrp hfresh hconvs ?_
      rw [hmem, hcid]
    have hsec : getOrCreateDirectConversation db3 a b = (Except.ok c, db3) := by
      unfold getOrCreateDirectConversation
      rw [hpair]
    have hswap : getOrCreateDirectConversation db3 b a = (Except.ok c, db3) := by
      unfold getOrCreateDirectConversation
      rw [directPair_comm, hpair]
    exact ⟨c, db3, hrun, hsec, hswap, by rw [hpair]; exact le_refl 1⟩

/-- C1, non-vacuity witness at the sample database, users 1 and 2 (the
direct conversation 7 already links them). -/
theorem getOrCreateDirect_idempotent_witness :
    ∃ c1 db1, getOrCreateDirectConversation dbW 1 2 = (Except.ok c1, db1) ∧
      getOrCreateDirectConversation db1 1 2 = (Except.ok c1, db1) ∧
      getOrCreateDirectConversation db1 2 1 = (Except.ok c1, db1) ∧
      (directPair db1 1 2).length ≤ 1 :=
  getOrCreateDirect_idempotent dbW 1 2 (by decide) (by decide) (by decide)
    (by decide) (by decide)

/-! Claims C3 and C5: message history. -/

theorem flatMap_congr {α β : Type} (f g : α → List β) (l : List α)
    (h : ∀ x ∈ l, f x = g x) : l.flatMap f = l.flatMap g := by
  induction l with
  | nil => rfl
  | cons a l ih =>
    rw [List.flatMap_cons, List.flatMap_cons, h a (by simp),
      ih (fun x hx => h x (by simp [hx]))]

/-- On a table with unique user ids the message-user join keeps exactly the
messages whose sender resolves, one row each. -/
theorem msgUserJoin_eq (db : DB) (hu : (db.users.map User.id).Nodup) :
    msgUserJoin db = db.messages.filterMap (joinSender db) := by
  have hpt : ∀ m ∈ db.messages,
      (db.users.filter (fun u => u.id == m.senderId)).map
        (fun u => ({ message := m, sender := u } : MsgSender)) =
      (joinSender db m).toList := by
    intro m _
    rw [filter_key_eq_toList User.id db.users hu m.senderId]
    unfold joinSender getUser
    cases hf : db.users.find? (fun u => u.id == m.senderId) <;> simp [hf]
  unfold msgUserJoin
  rw [flatMap_congr _ _ _ hpt, flatMap_toList_eq_filterMap]

/-- Every join row pairs a stored message with its stored sender. -/
theorem mem_msgUserJoin (db : DB) (r : MsgSender) (h : r ∈ msgUserJoin db) :
    r.message ∈ db.messages ∧ r.sender ∈ db.users ∧
    r.sender.id = r.message.senderId := by
  unfold msgUserJoin at h
  rcases List.mem_flatMap.mp h with ⟨m, hm, hr⟩
  rcases List.mem_map.mp hr with ⟨u, hu2, rfl⟩
  have h2 := List.mem_filter.mp hu2
  exact ⟨hm, h2.1, by simpa using h2.2⟩

/-- Every page row is a join row of the conversation that is not
soft-deleted. -/
theorem mem_historyPage (db : DB) (cid limit offset : Nat) (r : MsgSender)
    (h : r ∈ historyPage db cid limit offset) :
    r ∈ msgUserJoin db ∧ r.message.conversationId = cid ∧
    r.message.isDeleted = false := by
  unfold historyPage at h
  have h1 := List.mem_of_mem_take h
  have h2 := List.mem_of_mem_drop h1
  have h3 := (mem_sortByKeyDesc _ r _).mp h2
  have h4 := List.mem_filter.mp h3
  have h5 := h4.2
  simp only [Bool.and_eq_true, beq_iff_eq] at h5
  exact ⟨h4.1, h5.1, h5.2⟩

/-- Every spec-side page message is a stored, non-deleted message of the
conversation. -/
theorem mem_specPage (db : DB) (cid limit offset : Nat) (m : Message)
    (h : m ∈ specPage db cid limit offset) :
    m ∈ db.messages ∧ m.conversationId = cid ∧ m.isDeleted = false := by
  unfold specPage at h
  have h1 := List.mem_of_mem_take h
  have h2 := List.mem_of_mem_drop h1
  have h3 := (mem_sortByKeyDesc _ m _).mp h2
  have h4 := List.mem_filter.mp h3
  have h5 := h4.2
  simp only [Bool.and_eq_true, beq_iff_eq, Bool.not_eq_true'] at h5
  exact ⟨h4.1, h5.1, h5.2⟩

/-- Filtering by a weaker predicate first does not change what `find?`
finds. -/
theorem find?_filter_imp {α : Type} (p q : α → Bool) (l : List α)
    (h : ∀ x, p x = true → q x = true) :
    (l.filter q).find? p = l.find? p := by
  induction l with
  | nil => rfl
  | cons a l ih =>
    rw [List.filter_cons]
    cases hqa : q a
    · have hpa : p a = false := by
        cases hpa : p a
        · rfl
        · exact absurd (h a hpa) (by simp [hqa])
      simp only [Bool.false_eq_true, if_false]
      rw [ih, List.find?_cons, hpa]
    · simp only [if_true]
      rw [List.find?_cons, List.find?_cons]
      cases hpa : p a <;> simp [hpa, ih]

/-- The reply lookup of `getConversationMessages` — last-wins map built from
the rows whose id occurs among the page's reply targets — agrees with the
spec-side reply join for any id that occurs among the targets. -/
theorem replyRows_find (db : DB) (ids : List Nat) (i : Nat)
    (hm : (db.messages.map Message.id).Nodup)
    (hu : (db.users.map User.id).Nodup)
    (hi : ids.contains i = true) :
    (((msgUserJoin db).filter (fun r => ids.contains r.message.id)).reverse.find?
      (fun t => t.message.id == i)) = replyJoinSpec db i := by
  have himp : ∀ x : MsgSender, (x.message.id == i) = true →
      (ids.contains x.message.id) = true := by
    intro x hx
    have hxi : x.message.id = i := by simpa using hx
    rw [hxi]
    exact hi
  have hcomm : ∀ (m : Message) (r : MsgSender), joinSender db m = some r →
      ((r.message.id == i) = ((fun m2 : Message => m2.id == i) m)) := by
    intro m r hg
    unfold joinSender at hg
    cases hgu : getUser db m.senderId
    · rw [hgu] at hg
      cases hg
    · rename_i u
      rw [hgu] at hg
      have hg2 : ({ message := m, sender := u } : MsgSender) = r := by
        injection hg
      rw [← hg2]
  rw [show ((msgUserJoin db).filter (fun r => ids.contains r.message.id)).reverse
      = (msgUserJoin db).reverse.filter (fun r => ids.contains r.message.id)
      from (List.filter_reverse _ _).symm]
  rw [find?_filter_imp _ _ _ himp]
  rw [find?_eq_head?_filter, List.filter_reverse]
  rw [msgUserJoin_eq db hu]
  rw [filter_filterMap_comm (joinSender db) _ _ _ hcomm]
  rw [filter_key_eq_toList Message.id db.messages hm i]
  cases hf : db.messages.find? (fun x => x.id == i)
  · simp [replyJoinSpec, getMessage, hf]
  · rename_i t
    unfold replyJoinSpec getMessage
    rw [hf]
    simp only [Option.toList_some]
    cases hgt : getUser db t.senderId
    · simp [List.filterMap_cons, joinSender, hgt]
    · simp [List.filterMap_cons, joinSender, hgt]

/-- C3: a soft-deleted message never appears as an element of the history
result, yet an entry of the result whose reply reference points at the
deleted message still carries it — with its sender — as its reply target
(the reply fetch has no deleted-filter). -/
theorem history_deleted_excluded_yet_reply_target (db : DB)
    (cid limit offset : Nat) (d : Message) (u : User)
    (hd : d ∈ db.messages) (hdel : d.isDeleted = true)
    (hm : (db.messages.map Message.id).Nodup)
    (hu : (db.users.map User.id).Nodup)
    (hsender : getUser db d.senderId = some u) :
    (∀ e ∈ getConversationMessages db cid limit offset, e.message ≠ d) ∧
    (∀ e ∈ getConversationMessages db cid limit offset,
      e.message.replyToId = some d.id →
      e.replyTo = some { message := d, sender := u }) := by
  have hres : getConversationMessages db cid limit offset =
      ((historyPage db cid limit offset).map (fun r =>
        { message := r.message, sender := r.sender,
          replyTo := r.message.replyToId.bind (fun i =>
            ((msgUserJoin db).filter (fun t =>
              ((historyPage db cid limit offset).filterMap
                (fun r2 => r2.message.replyToId)).contains
                t.message.id)).reverse.find?
              (fun t => t.message.id == i)) })).reverse := rfl
  constructor
  · intro e he
    rw [hres] at he
    rcases List.mem_map.mp (List.mem_reverse.mp he) with ⟨r, hr, rfl⟩
    have hpage := mem_historyPage db cid limit offset r hr
    intro heq
    have heq2 : r.message = d := heq
    have h2 := hpage.2.2
    rw [heq2, hdel] at h2
    cases h2
  · intro e he hrep
    rw [hres] at he
    rcases List.mem_map.mp (List.mem_reverse.mp he) with ⟨r, hr, rfl⟩
    have hrep2 : r.message.replyToId = some d.id := hrep
    show (r.message.replyToId.bind _) = some { message := d, sender := u }
    rw [hrep2]
    show (((msgUserJoin db).filter _).reverse.find?
      (fun t => t.message.id == d.id)) = _
    have hcontains : (((historyPage db cid limit offset).filterMap
        (fun r2 => r2.message.replyToId)).contains d.id) = true := by
      have hmem : d.id ∈ (historyPage db cid limit offset).filterMap
          (fun r2 => r2.message.replyToId) :=
        List.mem_filterMap.mpr ⟨r, hr, hrep2⟩
      exact List.elem_iff.mpr hmem
    rw [replyRows_find db _ d.id hm hu hcontains]
    unfold replyJoinSpec
    have hgm : getMessage db d.id = some d := by
      unfold getMessage
      cases hf : db.messages.find? (fun m2 => m2.id == d.id)
      · exact absurd (by simp : (d.id == d.id) = true)
          (List.find?_eq_none.mp hf d hd)
      · rename_i d2
        have hid := List.find?_some (p := fun m2 : Message => m2.id == d.id) hf
        have hmem2 := List.mem_of_find?_eq_some hf
        have hdd : d2 = d := List.inj_on_of_nodup_map hm hmem2 hd
          (by simpa using hid)
        rw [hdd]
    rw [hgm]
    show (getUser db d.senderId).map _ = _
    rw [hsender]
    rfl

/-- C3, non-vacuity witness: in the sample database message 5 replies to
the soft-deleted message 4; the history of conversation 7 never lists
message 4 yet resolves it (with sender 1) as message 5's reply target. -/
theorem history_deleted_witness :
    (∀ e ∈ getConversationMessages dbW 7 50 0, e.message ≠ mDel) ∧
    (∀ e ∈ getConversationMessages dbW 7 50 0,
      e.message.replyToId = some mDel.id →
      e.replyTo = some { message := mDel, sender := uAlice }) :=
  history_deleted_excluded_yet_reply_target dbW 7 50 0 mDel uAlice
    (by decide) (by decide) (by decide) (by decide) (by decide)

/-- When every message's sender resolves and user ids are unique, the page
of the source query is the spec-side page joined with each message's
sender. -/
theorem historyPage_eq (db : DB) (cid limit offset : Nat)
    (hu : (db.users.map User.id).Nodup)
    (hs : ∀ m ∈ db.messages, userExists db m.senderId = true) :
    historyPage db cid limit offset =
      (specPage db cid limit offset).map (senderJoin db) := by
  have hsome : ∀ m ∈ db.messages, joinSender db m = some (senderJoin db m) := by
    intro m hm
    have hex := hs m hm
    unfold joinSender senderJoin
    cases hgu : getUser db m.senderId
    · unfold getUser at hgu
      rw [List.find?_eq_none] at hgu
      rcases List.any_eq_true.mp hex with ⟨x, hx, hpx⟩
      exact absurd hpx (hgu x hx)
    · simp [hgu]
  have hcomm : ∀ (m : Message) (r : MsgSender), joinSender db m = some r →
      ((r.message.conversationId == cid && r.message.isDeleted == false) =
        ((fun m2 : Message =>
          m2.conversationId == cid && m2.isDeleted == false) m)) := by
    intro m r hg
    unfold joinSender at hg
    cases hgu : getUser db m.senderId
    · rw [hgu] at hg
      cases hg
    · rename_i u
      rw [hgu] at hg
      have hg2 : ({ message := m, sender := u } : MsgSender) = r := by
        injection hg
      rw [← hg2]
  have hQQ : db.messages.filter
      (fun m2 => m2.conversationId == cid && m2.isDeleted == false) =
      db.messages.filter
        (fun m2 => m2.conversationId == cid && !m2.isDeleted) :=
    List.filter_congr (fun m2 _ => by cases hmd : m2.isDeleted <;> simp [hmd])
  unfold historyPage specPage
  rw [msgUserJoin_eq db hu]
  rw [filter_filterMap_comm (joinSender db) _ _ _ hcomm]
  rw [filterMap_eq_map_of (joinSender db) (senderJoin db) _
    (fun m hmf => hsome m (List.mem_filter.mp hmf).1)]
  rw [sortByKeyDesc_map (senderJoin db)
    (fun r : MsgSender => r.message.createdAt) _]
  rw [show (fun x : Message => (senderJoin db x).message.createdAt) =
    Message.createdAt from rfl]
  rw [hQQ, ← List.map_drop, ← List.map_take]

/-- The source history agrees with the spec-side reading whenever user ids
and message ids are unique and every sender resolves. -/
theorem history_refines (db : DB) (cid limit offset : Nat)
    (hu : (db.users.map User.id).Nodup)
    (hm : (db.messages.map Message.id).Nodup)
    (hs : ∀ m ∈ db.messages, userExists db m.senderId = true) :
    getConversationMessages db cid limit offset =
      historySpec db cid limit offset := by
  have hpageq := historyPage_eq db cid limit offset hu hs
  have hres : getConversationMessages db cid limit offset =
      ((historyPage db cid limit offset).map (fun r =>
        { message := r.message, sender := r.sender,
          replyTo := r.message.replyToId.bind (fun i =>
            ((msgUserJoin db).filter (fun t =>
              ((historyPage db cid limit offset).filterMap
                (fun r2 => r2.message.replyToId)).contains
                t.message.id)).reverse.find?
              (fun t => t.message.id == i)) })).reverse := rfl
  have hids : (historyPage db cid limit offset).filterMap
      (fun r2 => r2.message.replyToId) =
      (specPage db cid limit offset).filterMap
        (fun m2 => m2.replyToId) := by
    rw [hpageq, List.filterMap_map]
    rfl
  have hspec : historySpec db cid limit offset =
      ((specPage db cid limit offset).filterMap (fun m =>
        (getUser db m.senderId).map (fun u =>
          { message := m, sender := u,
            replyTo := m.replyToId.bind (replyJoinSpec db) }))).reverse := rfl
  rw [hres, hpageq, hspec, List.map_map]
  rw [filterMap_eq_map_of _
    (fun m => ({ message := m,
                 sender := (getUser db m.senderId).getD dummyUser,
                 replyTo := m.replyToId.bind (replyJoinSpec db) } :
      HistoryEntry)) _ (fun m hmp => ?hjoin)]
  case hjoin =>
    have hmem := (mem_specPage db cid limit offset m hmp).1
    have hex := hs m hmem
    show (getUser db m.senderId).map (fun u =>
        ({ message := m, sender := u,
           replyTo := m.replyToId.bind (replyJoinSpec db) } : HistoryEntry)) =
      some { message := m, sender := (getUser db m.senderId).getD dummyUser,
             replyTo := m.replyToId.bind (replyJoinSpec db) }
    cases hgu : getUser db m.senderId
    · exfalso
      unfold getUser at hgu
      rw [List.find?_eq_none] at hgu
      rcases List.any_eq_true.mp hex with ⟨x, hx, hpx⟩
      exact absurd hpx (hgu x hx)
    · rfl
  refine congrArg List.reverse (List.map_congr_left (fun m hmp => ?_))
  have hcont2 : ((specPage db cid limit offset).map
      (senderJoin db)).filterMap (fun r2 => r2.message.replyToId) =
      (specPage db cid limit offset).filterMap (fun m2 => m2.replyToId) := by
    rw [List.filterMap_map]
    rfl
  show ({ message := m, sender := (getUser db m.senderId).getD dummyUser,
          replyTo := m.replyToId.bind (fun i =>
            ((msgUserJoin db).filter (fun t =>
              (((specPage db cid limit offset).map
                (senderJoin db)).filterMap
                  (fun r2 => r2.message.replyToId)).contains
                t.message.id)).reverse.find?
              (fun t => t.message.id == i)) } : HistoryEntry) = _
  rw [hcont2]
  refine congrArg (fun x =>
    ({ message := m, sender := (getUser db m.senderId).getD dummyUser,
       replyTo := x } : HistoryEntry)) ?_
  cases hrep : m.replyToId
  · rfl
  · rename_i i
    show (((msgUserJoin db).filter (fun t =>
        ((specPage db cid limit offset).filterMap
          (fun m2 => m2.replyToId)).contains t.message.id)).reverse.find?
      (fun t => t.message.id == i)) = replyJoinSpec db i
    exact replyRows_find db _ i hm hu
      (List.elem_iff.mpr (List.mem_filterMap.mpr ⟨m, hmp, hrep⟩))

/-- C5: history returns exactly the conversation's non-deleted messages —
the `limit` newest after skipping `offset`, newest-first internally and
reversed to oldest-first for delivery, each joined with its sender profile
and resolved reply target — and the route defaults are limit 50, offset 0.
Stated as agreement with the spec-side reading plus the per-element and
ordering consequences. -/
theorem history_matches_spec (db : DB) (cid limit offset : Nat)
    (hu : (db.users.map User.id).Nodup)
    (hm : (db.messages.map Message.id).Nodup)
    (hs : ∀ m ∈ db.messages, userExists db m.senderId = true) :
    getConversationMessages db cid limit offset =
      historySpec db cid limit offset ∧
    getMessagesRoute db cid none none = historySpec db cid 50 0 ∧
    (∀ e ∈ getConversationMessages db cid limit offset,
      e.message.conversationId = cid ∧ e.message.isDeleted = false ∧
      e.sender.id = e.message.senderId ∧ e.sender ∈ db.users) ∧
    List.Pairwise (fun e1 e2 => e1.message.createdAt ≤ e2.message.createdAt)
      (getConversationMessages db cid limit offset) := by
  have hres : getConversationMessages db cid limit offset =
      ((historyPage db cid limit offset).map (fun r =>
        { message := r.message, sender := r.sender,
          replyTo := r.message.replyToId.bind (fun i =>
            ((msgUserJoin db).filter (fun t =>
              ((historyPage db cid limit offset).filterMap
                (fun r2 => r2.message.replyToId)).contains
                t.message.id)).reverse.find?
              (fun t => t.message.id == i)) })).reverse := rfl
  refine ⟨history_refines db cid limit offset hu hm hs, ?_, ?_, ?_⟩
  · show getConversationMessages db cid 50 0 = historySpec db cid 50 0
    exact history_refines db cid 50 0 hu hm hs
  · intro e he
    rw [hres] at he
    rcases List.mem_map.mp (List.mem_reverse.mp he) with ⟨r, hr, rfl⟩
    have hpage := mem_historyPage db cid limit offset r hr
    have hjoin := mem_msgUserJoin db r hpage.1
    exact ⟨hpage.2.1, hpage.2.2, hjoin.2.2, hjoin.2.1⟩
  · rw [hres, List.pairwise_reverse, List.pairwise_map]
    have hsub : (historyPage db cid limit offset).Sublist
        (sortByKeyDesc (fun r : MsgSender => r.message.createdAt)
          ((msgUserJoin db).filter (fun r =>
            r.message.conversationId == cid &&
              r.message.isDeleted == false))) := by
      unfold historyPage
      exact (List.take_sublist _ _).trans (List.drop_sublist _ _)
    exact List.Pairwise.sublist hsub (pairwise_sortByKeyDesc _ _)

/-- C5, non-vacuity witness at the sample database, conversation 7 with
default limit and offset. -/
theorem history_matches_spec_witness :
    getConversationMessages dbW 7 50 0 = historySpec dbW 7 50 0 ∧
    getMessagesRoute dbW 7 none none = historySpec dbW 7 50 0 ∧
    (∀ e ∈ getConversationMessages dbW 7 50 0,
      e.message.conversationId = 7 ∧ e.message.isDeleted = false ∧
      e.sender.id = e.message.senderId ∧ e.sender ∈ dbW.users) ∧
    List.Pairwise (fun e1 e2 => e1.message.createdAt ≤ e2.message.createdAt)
      (getConversationMessages dbW 7 50 0) :=
  history_matches_spec dbW 7 50 0 (by decide) (by decide) (by decide)

end ChatConnect
